import Mathlib

/-!
Verification of the Gap Analysis & Roadmap Generation engine
(`src/utils/gap-analysis.ts`) against its specification.

The TypeScript module is shallowly embedded below.  JavaScript numbers are
modelled by `JSNum` (an explicit NaN / ±infinity / rational carrier) where the
source can produce non-finite values, and by `ℚ` / `ℤ` / `Nat` where it cannot.
JavaScript `Map` objects are modelled by insertion-ordered association lists
(`mset` / `mget`), matching `Map.prototype.set` (overwrite keeps position,
fresh keys append) and `Map` iteration order.  `Array.prototype.forEach`
captures the array length before the first callback, so elements appended
during the loop are not visited; the embedding of `topologicalSort` iterates
the original list only, exactly as the ECMAScript semantics prescribe.
-/

/-- Model of a JavaScript `number` restricted to the values reachable in this
module: NaN, the two infinities, and finite values (idealised as rationals). -/
inductive JSNum where
  | nan : JSNum
  | posInf : JSNum
  | negInf : JSNum
  | fin : ℚ → JSNum
deriving DecidableEq

/-- Finite JavaScript number. -/
def jfin (q : ℚ) : JSNum := JSNum.fin q

/-- JavaScript addition: NaN absorbs, opposite infinities give NaN. -/
def jadd : JSNum → JSNum → JSNum
  | JSNum.nan, _ => JSNum.nan
  | _, JSNum.nan => JSNum.nan
  | JSNum.posInf, JSNum.negInf => JSNum.nan
  | JSNum.negInf, JSNum.posInf => JSNum.nan
  | JSNum.posInf, _ => JSNum.posInf
  | _, JSNum.posInf => JSNum.posInf
  | JSNum.negInf, _ => JSNum.negInf
  | _, JSNum.negInf => JSNum.negInf
  | JSNum.fin a, JSNum.fin b => JSNum.fin (a + b)

/-- JavaScript multiplication: NaN absorbs, infinity times zero is NaN. -/
def jmul : JSNum → JSNum → JSNum
  | JSNum.nan, _ => JSNum.nan
  | _, JSNum.nan => JSNum.nan
  | JSNum.posInf, JSNum.posInf => JSNum.posInf
  | JSNum.posInf, JSNum.negInf => JSNum.negInf
  | JSNum.negInf, JSNum.posInf => JSNum.negInf
  | JSNum.negInf, JSNum.negInf => JSNum.posInf
  | JSNum.posInf, JSNum.fin b =>
      if 0 < b then JSNum.posInf else if b < 0 then JSNum.negInf else JSNum.nan
  | JSNum.fin a, JSNum.posInf =>
      if 0 < a then JSNum.posInf else if a < 0 then JSNum.negInf else JSNum.nan
  | JSNum.negInf, JSNum.fin b =>
      if 0 < b then JSNum.negInf else if b < 0 then JSNum.posInf else JSNum.nan
  | JSNum.fin a, JSNum.negInf =>
      if 0 < a then JSNum.negInf else if a < 0 then JSNum.posInf else JSNum.nan
  | JSNum.fin a, JSNum.fin b => JSNum.fin (a * b)

/-- JavaScript division: `0/0` is NaN, `x/0` with `x ≠ 0` is a signed
infinity (all zero divisors arising in this module are positive zero). -/
def jdiv : JSNum → JSNum → JSNum
  | JSNum.nan, _ => JSNum.nan
  | _, JSNum.nan => JSNum.nan
  | JSNum.posInf, JSNum.posInf => JSNum.nan
  | JSNum.posInf, JSNum.negInf => JSNum.nan
  | JSNum.negInf, JSNum.posInf => JSNum.nan
  | JSNum.negInf, JSNum.negInf => JSNum.nan
  | JSNum.posInf, JSNum.fin b => if b < 0 then JSNum.negInf else JSNum.posInf
  | JSNum.negInf, JSNum.fin b => if b < 0 then JSNum.posInf else JSNum.negInf
  | JSNum.fin _, JSNum.posInf => JSNum.fin 0
  | JSNum.fin _, JSNum.negInf => JSNum.fin 0
  | JSNum.fin a, JSNum.fin b =>
      if b = 0 then
        if a = 0 then JSNum.nan else if 0 < a then JSNum.posInf else JSNum.negInf
      else JSNum.fin (a / b)

/-- JavaScript `Math.min`: NaN if either argument is NaN. -/
def jmin : JSNum → JSNum → JSNum
  | JSNum.nan, _ => JSNum.nan
  | _, JSNum.nan => JSNum.nan
  | JSNum.posInf, b => b
  | a, JSNum.posInf => a
  | JSNum.negInf, _ => JSNum.negInf
  | _, JSNum.negInf => JSNum.negInf
  | JSNum.fin a, JSNum.fin b => JSNum.fin (min a b)

/-- JavaScript `Math.max`: NaN if either argument is NaN. -/
def jmax : JSNum → JSNum → JSNum
  | JSNum.nan, _ => JSNum.nan
  | _, JSNum.nan => JSNum.nan
  | JSNum.negInf, b => b
  | a, JSNum.negInf => a
  | JSNum.posInf, _ => JSNum.posInf
  | _, JSNum.posInf => JSNum.posInf
  | JSNum.fin a, JSNum.fin b => JSNum.fin (max a b)

/-- `isNaN` test. -/
def JSNum.isNan : JSNum → Bool
  | JSNum.nan => true
  | _ => false

/-- JavaScript `Math.round` on the (always finite, already clamped) final
score: round half away from zero upwards, i.e. `⌊q + 1/2⌋`. -/
def jround : JSNum → ℤ
  | JSNum.fin q => ⌊q + 1 / 2⌋
  | _ => 0

/-! ## JavaScript `Map` model -/

/-- `Map.prototype.set`: overwriting an existing key keeps its position,
a fresh key is appended (insertion order is preserved for iteration). -/
def mset {β : Type} (m : List (String × β)) (k : String) (v : β) :
    List (String × β) :=
  if m.any (fun p => p.1 == k) then
    m.map (fun p => if p.1 == k then (k, v) else p)
  else m ++ [(k, v)]

/-- `Map.prototype.get` (`none` models `undefined`). -/
def mget {β : Type} (m : List (String × β)) (k : String) : Option β :=
  (m.find? (fun p => p.1 == k)).map (fun p => p.2)

/-! ## Data model (`src/types/skill-taxonomy`, fields used by the module) -/

/-- Catalog skill (fields read by `gap-analysis.ts`). -/
structure Skill where
  id : String
  name : String
  difficulty : Nat
  typical_learning_time_weeks : ℚ
  prerequisites : List String
deriving DecidableEq

/-- One skill a candidate currently holds. -/
structure CandidateSkill where
  skill_id : String
  proficiency_level : Nat
deriving DecidableEq

/-- Candidate (fields read by the module). -/
structure Candidate where
  id : String
  experience_years : ℚ
  current_skills : List CandidateSkill
deriving DecidableEq

/-- Importance tier of a role requirement. -/
inductive Importance where
  | Critical : Importance
  | High : Importance
  | Medium : Importance
  | Low : Importance
deriving DecidableEq

/-- One skill a target role demands. -/
structure RoleSkillRequirement where
  skill_id : String
  minimum_proficiency : Nat
  importance : Importance
deriving DecidableEq

/-- Target role (fields read by the module). -/
structure TargetRole where
  id : String
  min_experience_years : ℚ
  required_skills : List RoleSkillRequirement
deriving DecidableEq

/-- Derived skill gap. -/
structure SkillGap where
  skill_id : String
  current_proficiency : Nat
  required_proficiency : Nat
  gap_score : Nat
  priority : Importance
deriving DecidableEq

/-- Matched-skill comparison entry. -/
structure MatchedSkill where
  skill_id : String
  current_proficiency : Nat
  required_proficiency : Nat
  meets_requirement : Bool
deriving DecidableEq

/-- Experience-match record. -/
structure ExperienceMatch where
  candidate_years : ℚ
  required_years : ℚ
  meets_requirement : Bool
deriving DecidableEq

/-- Result of `analyzeGap`. -/
structure GapAnalysisResult where
  readiness_score : ℤ
  missing_skills : List SkillGap
  matched_skills : List MatchedSkill
  experience_match : ExperienceMatch
deriving DecidableEq

/-- One step of the learning path. -/
structure LearningPathStep where
  order : Nat
  skill_id : String
  estimated_weeks : ℚ
  prerequisites_met : Bool
  reason : String
deriving DecidableEq

/-- A learning phase. -/
structure LearningPhase where
  phase_number : Nat
  phase_name : String
  skills : List LearningPathStep
  estimated_weeks : ℚ
deriving DecidableEq

/-- Learning roadmap (the `generated_at` wall-clock timestamp is outside the
pure computation and is omitted). -/
structure LearningRoadmap where
  candidate_id : String
  target_role_id : String
  skill_gaps : List SkillGap
  estimated_total_weeks : ℚ
  learning_path : List LearningPathStep
deriving DecidableEq

/-- Complete analysis output of `generateAnalysis`. -/
structure CompleteAnalysis where
  candidate_id : String
  target_role_id : String
  gap_analysis : GapAnalysisResult
  learning_roadmap : LearningRoadmap
deriving DecidableEq

/-! ## Gap analyzer (`analyzeGap`, `calculateReadinessScore`) -/

/-- The `candidateSkillMap` built by `forEach`/`Map.set` (later duplicate
`skill_id` entries overwrite earlier ones). -/
def buildCandidateSkillMap (currentSkills : List CandidateSkill) :
    List (String × CandidateSkill) :=
  currentSkills.foldl (fun m cs => mset m cs.skill_id cs) []

/-- `candidateSkillMap.get(id)?.proficiency_level || 0`. -/
def candidateProficiency (candidate : Candidate) (skillId : String) : Nat :=
  match mget (buildCandidateSkillMap candidate.current_skills) skillId with
  | some cs => cs.proficiency_level
  | none => 0

/-- Importance multiplier used in `calculateReadinessScore` (both the per-match
`switch` and the normalising `reduce` use these values). -/
def importanceWeight : Importance → ℚ
  | Importance.Critical => 3 / 2
  | Importance.High => 6 / 5
  | Importance.Medium => 1
  | Importance.Low => 4 / 5

/-- The `matchedSkills.forEach` accumulation of `skillScore`: for each match,
look up the first requirement with that skill id (skip when absent), take
`min(current/required, 1)` — which is NaN when `0/0` — times the importance
multiplier, and add it to the accumulator. -/
def skillScoreOf (reqs : List RoleSkillRequirement)
    (matched : List MatchedSkill) : JSNum :=
  matched.foldl (fun acc m =>
    match reqs.find? (fun r => r.skill_id == m.skill_id) with
    | none => acc
    | some requirement =>
        jadd acc (jmul
          (jmin (jdiv (jfin (m.current_proficiency : ℚ))
                      (jfin (m.required_proficiency : ℚ))) (jfin 1))
          (jfin (importanceWeight requirement.importance))))
    (jfin 0)

/-- `targetRole.required_skills.reduce(...)`: sum of importance weights. -/
def totalImportanceWeight (reqs : List RoleSkillRequirement) : ℚ :=
  (reqs.map (fun r => importanceWeight r.importance)).sum

/-- `calculateReadinessScore`: 100 when the role has no required skills,
0 when the matched-comparison list is empty, otherwise the weighted
(70% skill / 30% experience) score with a NaN guard, clamped to `[0, 100]`
and rounded. -/
def calculateReadinessScore (candidate : Candidate) (targetRole : TargetRole)
    (matchedSkills : List MatchedSkill) : ℤ :=
  if targetRole.required_skills.length = 0 then 100
  else if matchedSkills.length = 0 then 0
  else
    let skillScore := skillScoreOf targetRole.required_skills matchedSkills
    let normalizedSkillScore :=
      if 0 < totalImportanceWeight targetRole.required_skills then
        jmul (jdiv skillScore (jfin (totalImportanceWeight targetRole.required_skills)))
          (jfin 100)
      else jfin 0
    let expFrac :=
      if 0 < targetRole.min_experience_years then
        jmin (jdiv (jfin candidate.experience_years)
                   (jfin targetRole.min_experience_years)) (jfin 1)
      else jfin 1
    let experienceScore := jmul expFrac (jfin 100)
    let finalScore := jadd (jmul normalizedSkillScore (jfin (7 / 10)))
                           (jmul experienceScore (jfin (3 / 10)))
    let validScore := if finalScore.isNan then jfin 0 else finalScore
    jround (jmin (jmax validScore (jfin 0)) (jfin 100))

/-- The matched-skill comparison entry recorded for one requirement. -/
def matchedEntry (candidate : Candidate) (req : RoleSkillRequirement) :
    MatchedSkill :=
  { skill_id := req.skill_id
    current_proficiency := candidateProficiency candidate req.skill_id
    required_proficiency := req.minimum_proficiency
    meets_requirement :=
      decide (req.minimum_proficiency ≤ candidateProficiency candidate req.skill_id) }

/-- The `SkillGap` emitted for one unmet requirement. -/
def gapEntry (candidate : Candidate) (req : RoleSkillRequirement) : SkillGap :=
  { skill_id := req.skill_id
    current_proficiency := candidateProficiency candidate req.skill_id
    required_proficiency := req.minimum_proficiency
    gap_score := req.minimum_proficiency - candidateProficiency candidate req.skill_id
    priority := req.importance }

/-- `analyzeGap`: one matched entry per requirement, one `SkillGap` per unmet
requirement, readiness score, and the experience-match record.  (The
`allSkills` parameter is accepted, and unused, exactly as in the source.) -/
def analyzeGap (candidate : Candidate) (targetRole : TargetRole)
    (allSkills : List Skill) : GapAnalysisResult :=
  { readiness_score :=
      calculateReadinessScore candidate targetRole
        (targetRole.required_skills.map (matchedEntry candidate))
    missing_skills :=
      targetRole.required_skills.filterMap (fun req =>
        if candidateProficiency candidate req.skill_id < req.minimum_proficiency
        then some (gapEntry candidate req) else none)
    matched_skills := targetRole.required_skills.map (matchedEntry candidate)
    experience_match :=
      { candidate_years := candidate.experience_years
        required_years := targetRole.min_experience_years
        meets_requirement :=
          decide (targetRole.min_experience_years ≤ candidate.experience_years) } }

/-! ## Dependency graph builder and topological sequencer (`topologicalSort`) -/

/-- The `skillMap` built from the catalog by `forEach`/`Map.set`. -/
def buildSkillMap (allSkills : List Skill) : List (String × Skill) :=
  allSkills.foldl (fun m s => mset m s.id s) []

/-- Mutable state of the edge-building loop: the (growing) `skillIds` array,
the adjacency-list `graph`, and the `inDegree` map. -/
structure BuildState where
  ids : List String
  graph : List (String × List String)
  inDegree : List (String × Int)
deriving DecidableEq

/-- `candidateSkillMap.has(prereqId) && (…?.proficiency_level || 0) >= 5`. -/
def candidateHasPrereq (candMap : List (String × CandidateSkill))
    (prereqId : String) : Bool :=
  match mget candMap prereqId with
  | some cs => decide (5 ≤ cs.proficiency_level)
  | none => false

/-- Body of the inner `skill.prerequisites.forEach`: possibly push the
missing prerequisite onto `skillIds` (initialising its graph/in-degree rows),
then record the edge `prereqId → skillId` and bump `skillId`'s in-degree. -/
def processPrereq (candMap : List (String × CandidateSkill)) (skillId : String)
    (st : BuildState) (prereqId : String) : BuildState :=
  if st.ids.contains prereqId || !(candidateHasPrereq candMap prereqId) then
    let st1 :=
      if !(st.ids.contains prereqId) && !(candidateHasPrereq candMap prereqId) then
        { ids := st.ids ++ [prereqId]
          graph := mset st.graph prereqId []
          inDegree := mset st.inDegree prereqId 0 }
      else st
    if st1.ids.contains prereqId then
      { st1 with
        graph :=
          match mget st1.graph prereqId with
          | some l => mset st1.graph prereqId (l ++ [skillId])
          | none => st1.graph
        inDegree :=
          mset st1.inDegree skillId ((mget st1.inDegree skillId).getD 0 + 1) }
    else st1
  else st

/-- Body of the outer `skillIds.forEach`: skills absent from the catalog are
silently skipped (`if (!skill) return`). -/
def processSkill (skillMap : List (String × Skill))
    (candMap : List (String × CandidateSkill)) (st : BuildState)
    (skillId : String) : BuildState :=
  match mget skillMap skillId with
  | none => st
  | some skill => skill.prerequisites.foldl (processPrereq candMap skillId) st

/-- Sort key of the ready-queue: `skillMap.get(a)?.difficulty || 0`. -/
def diffKey (skillMap : List (String × Skill)) (skillId : String) : Int :=
  match mget skillMap skillId with
  | some s => (s.difficulty : Int)
  | none => 0

/-- Stable insertion of one element into a key-sorted list (an element is
placed before the first element whose key is not smaller). -/
def insertByKey (key : String → Int) (a : String) : List String → List String
  | [] => [a]
  | b :: l => if key a ≤ key b then a :: b :: l else b :: insertByKey key a l

/-- Stable sort by key, modelling the JavaScript stable
`queue.sort((a, b) => keyA - keyB)`. -/
def sortByKey (key : String → Int) : List String → List String
  | [] => []
  | a :: l => insertByKey key a (sortByKey key l)

/-- One round of Kahn's algorithm per fuel unit: sort the queue by difficulty,
shift the head into the result, decrement each neighbour's in-degree and
enqueue those that reach zero.  The fuel passed by `topologicalSort` exceeds
the number of possible iterations, so exhaustion is unreachable. -/
def kahnLoop (skillMap : List (String × Skill))
    (graph : List (String × List String)) :
    Nat → List String → List (String × Int) → List String → List String
  | 0, _, _, result => result
  | Nat.succ fuel, queue, inDeg, result =>
    match sortByKey (diffKey skillMap) queue with
    | [] => result
    | current :: rest =>
      let step := ((mget graph current).getD []).foldl
        (fun (p : List (String × Int) × List String) nb =>
          let nd := (mget p.1 nb).getD 0 - 1
          (mset p.1 nb nd, if nd = 0 then p.2 ++ [nb] else p.2))
        (inDeg, rest)
      kahnLoop skillMap graph fuel step.2 step.1 (result ++ [current])

/-- `topologicalSort`: initialise graph rows for the input ids, run the
edge-building pass over the *original* `skillIds` elements only (JavaScript
`forEach` does not visit elements appended during the loop), then drain with
Kahn's algorithm, tie-breaking by ascending catalog difficulty. -/
def topologicalSort (skillIds : List String) (allSkills : List Skill)
    (candMap : List (String × CandidateSkill)) : List String :=
  let skillMap := buildSkillMap allSkills
  let st0 : BuildState :=
    { ids := skillIds
      graph := skillIds.foldl (fun g id => mset g id []) []
      inDegree := skillIds.foldl (fun d id => mset d id 0) [] }
  let st := skillIds.foldl (processSkill skillMap candMap) st0
  let queue := (st.inDegree.filter (fun p => p.2 == 0)).map (fun p => p.1)
  kahnLoop skillMap st.graph (2 * st.inDegree.length + 1) queue st.inDegree []

/-! ## Phase grouper (`groupIntoPhases`, `createPhase`) -/

/-- `createPhase`: known skills of the buffer, phase label from the average
difficulty, one step per buffer entry.  (For an id absent from the map the
source's non-null assertion would fault; that case is unreachable from
`groupIntoPhases` and is modelled by a zero-week placeholder step.) -/
def createPhase (phaseNumber : Nat) (skillIds : List String)
    (skillMap : List (String × Skill)) : LearningPhase :=
  let skills := skillIds.filterMap (mget skillMap)
  let avgDifficulty : ℚ :=
    (skills.map (fun s => (s.difficulty : ℚ))).sum / (skills.length : ℚ)
  let phaseName :=
    if 7 ≤ avgDifficulty then "Advanced"
    else if 4 ≤ avgDifficulty then "Intermediate"
    else "Fundamentals"
  { phase_number := phaseNumber
    phase_name := phaseName
    skills := skillIds.enum.map (fun p =>
      match mget skillMap p.2 with
      | some skill =>
          { order := p.1 + 1
            skill_id := p.2
            estimated_weeks := skill.typical_learning_time_weeks
            prerequisites_met := true
            reason := "Phase " ++ toString phaseNumber ++ ": " ++ phaseName
              ++ " - " ++ skill.name }
      | none =>
          { order := p.1 + 1
            skill_id := p.2
            estimated_weeks := 0
            prerequisites_met := true
            reason := "" })
    estimated_weeks := (skills.map (fun s => s.typical_learning_time_weeks)).sum }

/-- The `orderedSkills.forEach` of `groupIntoPhases`: close the buffered phase
before adding the next skill when the difficulty jumps by at least 3 over the
buffer's running maximum or the buffer already holds at least 4 skills; skills
absent from the catalog are silently skipped; flush the final buffer. -/
def groupLoop (skillMap : List (String × Skill)) :
    List String → List LearningPhase → List String → Int → List LearningPhase
  | [], phases, buf, _ =>
    if 0 < buf.length then
      phases ++ [createPhase (phases.length + 1) buf skillMap]
    else phases
  | skillId :: rest, phases, buf, maxDifficulty =>
    match mget skillMap skillId with
    | none => groupLoop skillMap rest phases buf maxDifficulty
    | some skill =>
      if (3 ≤ (skill.difficulty : Int) - maxDifficulty ∨ 4 ≤ buf.length)
          ∧ 0 < buf.length then
        groupLoop skillMap rest
          (phases ++ [createPhase (phases.length + 1) buf skillMap])
          [skillId] (max 0 (skill.difficulty : Int))
      else
        groupLoop skillMap rest phases (buf ++ [skillId])
          (max maxDifficulty (skill.difficulty : Int))

/-- `groupIntoPhases`. -/
def groupIntoPhases (orderedSkills : List String) (allSkills : List Skill) :
    List LearningPhase :=
  groupLoop (buildSkillMap allSkills) orderedSkills [] [] 0

/-! ## Roadmap assembler (`generateRoadmap`, `generateAnalysis`) -/

/-- Flattening of the phases into the learning path with the global
`globalOrder++` renumbering. -/
def flattenPhases (phases : List LearningPhase) : List LearningPathStep :=
  ((phases.map (fun ph => ph.skills)).flatten).enum.map
    (fun p => { p.2 with order := p.1 + 1 })

/-- `generateRoadmap`: empty roadmap for an empty gap list, otherwise
topological sort, phase grouping, flattening and total-duration summation. -/
def generateRoadmap (candidate : Candidate) (targetRole : TargetRole)
    (skillGaps : List SkillGap) (allSkills : List Skill) : LearningRoadmap :=
  let candMap := buildCandidateSkillMap candidate.current_skills
  let skillsToLearn := skillGaps.map (fun gap => gap.skill_id)
  if skillsToLearn.length = 0 then
    { candidate_id := candidate.id
      target_role_id := targetRole.id
      skill_gaps := []
      estimated_total_weeks := 0
      learning_path := [] }
  else
    let orderedSkills := topologicalSort skillsToLearn allSkills candMap
    let phases := groupIntoPhases orderedSkills allSkills
    let learningPath := flattenPhases phases
    { candidate_id := candidate.id
      target_role_id := targetRole.id
      skill_gaps := skillGaps
      estimated_total_weeks :=
        (learningPath.map (fun step => step.estimated_weeks)).sum
      learning_path := learningPath }

/-- `generateAnalysis`: gap analysis followed by roadmap generation from the
missing-skill list. -/
def generateAnalysis (candidate : Candidate) (targetRole : TargetRole)
    (allSkills : List Skill) : CompleteAnalysis :=
  let gapAnalysis := analyzeGap candidate targetRole allSkills
  { candidate_id := candidate.id
    target_role_id := targetRole.id
    gap_analysis := gapAnalysis
    learning_roadmap :=
      generateRoadmap candidate targetRole gapAnalysis.missing_skills allSkills }

/-! ## Helper lemmas -/

/-- A conditional `filterMap` is the mapped filter. -/
theorem filterMap_ite_eq_map_filter {α β : Type} (p : α → Prop) [DecidablePred p]
    (g : α → β) (l : List α) :
    l.filterMap (fun a => if p a then some (g a) else none)
      = (l.filter (fun a => decide (p a))).map g := by
  induction l with
  | nil => rfl
  | cons a l ih =>
    by_cases h : p a <;> simp [List.filterMap_cons, h, ih]

theorem jadd_nan_right (x : JSNum) : jadd x JSNum.nan = JSNum.nan := by
  cases x <;> rfl

theorem jadd_nan_left (x : JSNum) : jadd JSNum.nan x = JSNum.nan := by
  cases x <;> rfl

/-- Once the `skillScore` accumulator is NaN it stays NaN. -/
theorem skillScore_foldl_nan (reqs : List RoleSkillRequirement)
    (l : List MatchedSkill) :
    l.foldl (fun acc m =>
      match reqs.find? (fun r => r.skill_id == m.skill_id) with
      | none => acc
      | some requirement =>
          jadd acc (jmul
            (jmin (jdiv (jfin (m.current_proficiency : ℚ))
                        (jfin (m.required_proficiency : ℚ))) (jfin 1))
            (jfin (importanceWeight requirement.importance))))
      JSNum.nan = JSNum.nan := by
  induction l with
  | nil => rfl
  | cons a l ih =>
    simp only [List.foldl_cons]
    cases h : reqs.find? (fun r => r.skill_id == a.skill_id) with
    | none => simp only [h]; exact ih
    | some r => simp only [h, jadd_nan_left]; exact ih

/-- A `0/0` proficiency ratio of any matched entry whose requirement lookup
succeeds makes the whole `skillScore` NaN. -/
theorem skillScoreOf_eq_nan (reqs : List RoleSkillRequirement)
    (matched : List MatchedSkill) (m : MatchedSkill) (hm : m ∈ matched)
    (hfind : (reqs.find? (fun r => r.skill_id == m.skill_id)).isSome)
    (hcur : m.current_proficiency = 0) (hreq : m.required_proficiency = 0) :
    skillScoreOf reqs matched = JSNum.nan := by
  unfold skillScoreOf
  have key : ∀ (l : List MatchedSkill) (acc : JSNum), m ∈ l →
      l.foldl (fun acc m =>
        match reqs.find? (fun r => r.skill_id == m.skill_id) with
        | none => acc
        | some requirement =>
            jadd acc (jmul
              (jmin (jdiv (jfin (m.current_proficiency : ℚ))
                          (jfin (m.required_proficiency : ℚ))) (jfin 1))
              (jfin (importanceWeight requirement.importance))))
        acc = JSNum.nan := by
    intro l
    induction l with
    | nil => intro acc h; exact absurd h (List.not_mem_nil m)
    | cons a l ih =>
      intro acc h
      rcases List.mem_cons.mp h with h | h
      · subst h
        obtain ⟨r, hr⟩ := Option.isSome_iff_exists.mp hfind
        simp only [List.foldl_cons, hr, hcur, hreq, Nat.cast_zero]
        have hterm : jmul (jmin (jdiv (jfin (0 : ℚ)) (jfin (0 : ℚ))) (jfin 1))
            (jfin (importanceWeight r.importance)) = JSNum.nan := by
          simp [jdiv, jfin, jmin, jmul]
        rw [hterm, jadd_nan_right]
        exact skillScore_foldl_nan reqs l
      · simp only [List.foldl_cons]
        exact ih _ h
  exact key matched (jfin 0) hm

theorem importanceWeight_pos (i : Importance) : 0 < importanceWeight i := by
  cases i <;> norm_num [importanceWeight]

theorem totalImportanceWeight_nonneg (reqs : List RoleSkillRequirement) :
    0 ≤ totalImportanceWeight reqs := by
  unfold totalImportanceWeight
  induction reqs with
  | nil => simp
  | cons a l ih =>
    simp only [List.map_cons, List.sum_cons]
    have := importanceWeight_pos a.importance
    linarith

theorem totalImportanceWeight_pos (reqs : List RoleSkillRequirement)
    (h : reqs ≠ []) : 0 < totalImportanceWeight reqs := by
  cases reqs with
  | nil => exact absurd rfl h
  | cons a l =>
    have h1 := importanceWeight_pos a.importance
    have h2 := totalImportanceWeight_nonneg l
    unfold totalImportanceWeight at h2 ⊢
    simp only [List.map_cons, List.sum_cons]
    linarith

/-! ## Claim theorems -/

/-- C1: the missing-skill list of `analyzeGap` contains a `SkillGap` entry
for a required skill if and only if the candidate's current proficiency
(0 when unlisted) is strictly below the requirement's minimum proficiency;
it is exactly the in-order image of the unmet requirements, each entry
carrying gap magnitude `minimum − current` and the requirement's importance
tier as priority (`gapEntry`). -/
theorem c1_skill_gap_iff (candidate : Candidate) (targetRole : TargetRole)
    (allSkills : List Skill) :
    (analyzeGap candidate targetRole allSkills).missing_skills
        = (targetRole.required_skills.filter (fun req =>
            decide (candidateProficiency candidate req.skill_id
              < req.minimum_proficiency))).map (gapEntry candidate)
      ∧ (∀ req ∈ targetRole.required_skills,
          candidateProficiency candidate req.skill_id < req.minimum_proficiency →
            gapEntry candidate req
              ∈ (analyzeGap candidate targetRole allSkills).missing_skills)
      ∧ (∀ g ∈ (analyzeGap candidate targetRole allSkills).missing_skills,
          ∃ req ∈ targetRole.required_skills,
            g = gapEntry candidate req
            ∧ candidateProficiency candidate req.skill_id
                < req.minimum_proficiency) := by
  refine ⟨?_, ?_, ?_⟩
  · unfold analyzeGap
    exact filterMap_ite_eq_map_filter _ _ _
  · intro req hreq hlt
    unfold analyzeGap
    simp only [List.mem_filterMap]
    exact ⟨req, hreq, by simp [hlt]⟩
  · intro g hg
    unfold analyzeGap at hg
    simp only [List.mem_filterMap] at hg
    obtain ⟨req, hreq, hif⟩ := hg
    by_cases hlt : candidateProficiency candidate req.skill_id
        < req.minimum_proficiency
    · rw [if_pos hlt] at hif
      exact ⟨req, hreq, (Option.some_inj.mp hif).symm, hlt⟩
    · rw [if_neg hlt] at hif
      exact absurd hif (Option.noConfusion)

/-- C1 witness: a candidate holding `aa` at proficiency 3 against a role
requiring `aa` at 5 gets a gap entry for that requirement. -/
theorem c1_skill_gap_iff_witness :
    gapEntry ⟨"cand", 2, [⟨"aa", 3⟩]⟩ ⟨"aa", 5, Importance.Critical⟩
      ∈ (analyzeGap ⟨"cand", 2, [⟨"aa", 3⟩]⟩
          ⟨"role", 1, [⟨"aa", 5, Importance.Critical⟩, ⟨"bb", 2, Importance.Low⟩]⟩
          []).missing_skills :=
  (c1_skill_gap_iff ⟨"cand", 2, [⟨"aa", 3⟩]⟩
      ⟨"role", 1, [⟨"aa", 5, Importance.Critical⟩, ⟨"bb", 2, Importance.Low⟩]⟩
      []).2.1 ⟨"aa", 5, Importance.Critical⟩ (by simp)
    (by simp [candidateProficiency, buildCandidateSkillMap, mset, mget])

theorem jmul_nan_left (x : JSNum) : jmul JSNum.nan x = JSNum.nan := by
  cases x <;> rfl

theorem jdiv_nan_left (x : JSNum) : jdiv JSNum.nan x = JSNum.nan := by
  cases x <;> rfl

/-- C5 (failing evaluation): a candidate with an empty current-skill list but
4 years of experience, against a role requiring `aa` at proficiency 5 with a
2-year experience floor, gets readiness score 30, not 0 — the source's
`matchedSkills.length === 0` guard counts requirement comparisons (one per
required skill, present even for a skill-less candidate), so the documented
zero-skills short-circuit never fires and the experience component leaks
through. -/
theorem c5_zero_skills_failing_eval :
    (analyzeGap ⟨"cand", 4, []⟩ ⟨"role", 2, [⟨"aa", 5, Importance.Medium⟩]⟩
        [⟨"aa", "SkillA", 3, 2, []⟩]).readiness_score = 30 := by
  norm_num [analyzeGap, calculateReadinessScore, matchedEntry,
    candidateProficiency, buildCandidateSkillMap, mset, mget, skillScoreOf,
    totalImportanceWeight, importanceWeight, jfin, jdiv, jmin, jmul, jadd,
    jmax, JSNum.isNan, jround, List.find?]

/-- C6 (counterexample): for a role with zero required skills and a 10-year
experience floor, a candidate with 0 years gets readiness score 100 (the
source returns 100 before computing the weighted formula), while the claimed
formula `round(100 × 0.7 + experienceComponent × 0.3)` yields 70. -/
theorem c6_zero_required_counterexample :
    (analyzeGap ⟨"cand", 0, []⟩ ⟨"role", 10, []⟩ []).readiness_score = 100
      ∧ jround (jadd (jmul (jfin 100) (jfin (7 / 10)))
          (jmul (jmul (jmin (jdiv (jfin 0) (jfin 10)) (jfin 1)) (jfin 100))
            (jfin (3 / 10)))) = 70
      ∧ (100 : ℤ) ≠ 70 := by
  refine ⟨?_, ?_, by norm_num⟩
  · simp [analyzeGap, calculateReadinessScore]
  · norm_num [jround, jadd, jmul, jmin, jdiv, jfin]

/-- C6 (amended): for every target role with zero required skills the
readiness score is 100 outright, regardless of the candidate's and the role's
experience years; in particular it is 100 when the required experience is 0. -/
theorem c6_zero_required_amended (candidate : Candidate)
    (targetRole : TargetRole) (allSkills : List Skill)
    (h : targetRole.required_skills = []) :
    (analyzeGap candidate targetRole allSkills).readiness_score = 100 := by
  simp [analyzeGap, calculateReadinessScore, h]

/-- C6 amended witness: concrete role with no required skills. -/
theorem c6_zero_required_amended_witness :
    (analyzeGap ⟨"other", 3, []⟩ ⟨"lead", 0, []⟩ []).readiness_score = 100 :=
  c6_zero_required_amended ⟨"other", 3, []⟩ ⟨"lead", 0, []⟩ [] rfl

/-- C10: when some requirement has minimum proficiency 0 and the candidate's
proficiency for that skill is also 0, the `0/0` ratio is NaN, propagates
through the weighted sum, and the final NaN guard forces readiness score 0
regardless of the other matched skills and of experience. -/
theorem c10_zero_ratio_nan_guard (candidate : Candidate)
    (targetRole : TargetRole) (allSkills : List Skill)
    (h : ∃ req ∈ targetRole.required_skills, req.minimum_proficiency = 0
      ∧ candidateProficiency candidate req.skill_id = 0) :
    (analyzeGap candidate targetRole allSkills).readiness_score = 0 := by
  obtain ⟨req, hreq, hmin, hprof⟩ := h
  have hne : targetRole.required_skills ≠ [] := by
    intro hempty
    rw [hempty] at hreq
    exact absurd hreq (List.not_mem_nil req)
  have hm : matchedEntry candidate req
      ∈ targetRole.required_skills.map (matchedEntry candidate) :=
    List.mem_map_of_mem _ hreq
  have hfind : (targetRole.required_skills.find?
      (fun r => r.skill_id == (matchedEntry candidate req).skill_id)).isSome := by
    rw [List.find?_isSome]
    exact ⟨req, hreq, by simp [matchedEntry]⟩
  have hnan := skillScoreOf_eq_nan targetRole.required_skills
    (targetRole.required_skills.map (matchedEntry candidate))
    (matchedEntry candidate req) hm hfind
    (by simp [matchedEntry, hprof]) (by simp [matchedEntry, hmin])
  have h1 : ¬ targetRole.required_skills.length = 0 := by
    simpa [List.length_eq_zero] using hne
  have h2 : ¬ (targetRole.required_skills.map (matchedEntry candidate)).length
      = 0 := by
    simpa [List.length_eq_zero] using hne
  have htw := totalImportanceWeight_pos targetRole.required_skills hne
  unfold analyzeGap
  simp only []
  unfold calculateReadinessScore
  rw [if_neg h1, if_neg h2]
  simp only [hnan, if_pos htw, jdiv_nan_left, jmul_nan_left, jadd_nan_left,
    JSNum.isNan, if_pos]
  norm_num [jmax, jmin, jfin, jround]

/-- C10 witness: concrete role requiring `aa` at minimum proficiency 0
against a candidate without skills but with experience. -/
theorem c10_zero_ratio_nan_guard_witness :
    (analyzeGap ⟨"cand", 3, []⟩
        ⟨"role", 0, [⟨"aa", 0, Importance.Critical⟩]⟩ []).readiness_score = 0 :=
  c10_zero_ratio_nan_guard ⟨"cand", 3, []⟩
    ⟨"role", 0, [⟨"aa", 0, Importance.Critical⟩]⟩ []
    ⟨⟨"aa", 0, Importance.Critical⟩, by simp, rfl, rfl⟩

/-- C2 (failing evaluation): with catalog `p` (difficulty 5, no prerequisites),
`s` (difficulty 1, prerequisite `p`) and `g` (difficulty 1, prerequisite `s`),
a role requiring `g` and `p`, and a skill-less candidate, the generated path is
`s, g, p`: the step for `s` sits at position 1 while its catalog-declared
prerequisite `p` — also present in the roadmap — sits at position 3.  The edge
`p → s` is lost because `s` is only pushed into `skillIds` during the
`forEach` (whose range is fixed at call time), so `s`'s own prerequisite row
is never examined, contradicting the sort's documented guarantee that all
prerequisites come before dependents. -/
theorem c2_prereq_order_failing_eval :
    ((generateAnalysis ⟨"cand", 0, []⟩
        ⟨"role", 0, [⟨"g", 5, Importance.High⟩, ⟨"p", 5, Importance.High⟩]⟩
        [⟨"p", "P", 5, 1, []⟩, ⟨"s", "S", 1, 1, ["p"]⟩, ⟨"g", "G", 1, 1, ["s"]⟩]
      ).learning_roadmap.learning_path.map (fun st => st.skill_id))
      = ["s", "g", "p"]
    ∧ (∀ sk ∈ ([⟨"p", "P", 5, 1, []⟩, ⟨"s", "S", 1, 1, ["p"]⟩,
          ⟨"g", "G", 1, 1, ["s"]⟩] : List Skill),
        sk.id = "s" → "p" ∈ sk.prerequisites) := by
  constructor
  · decide
  · decide

/-- C3 (failing evaluation): with catalog chain `a` (prerequisite `b`),
`b` (prerequisite `c`), `c` (no prerequisites), a role requiring only `a`,
and a skill-less candidate, the roadmap is `b, a` and the transitively
required, unheld prerequisite `c` is absent: the expansion only examines the
prerequisites of the original gap skills, because `Array.prototype.forEach`
fixes its range before the first callback and never visits the pushed
prerequisite `b`, whose own prerequisite `c` is therefore never inserted. -/
theorem c3_transitive_expansion_failing_eval :
    ((generateAnalysis ⟨"cand", 0, []⟩
        ⟨"role", 0, [⟨"a", 5, Importance.High⟩]⟩
        [⟨"a", "A", 2, 1, ["b"]⟩, ⟨"b", "B", 2, 1, ["c"]⟩, ⟨"c", "C", 2, 1, []⟩]
      ).learning_roadmap.learning_path.map (fun st => st.skill_id))
      = ["b", "a"]
    ∧ "c" ∉ ((generateAnalysis ⟨"cand", 0, []⟩
        ⟨"role", 0, [⟨"a", 5, Importance.High⟩]⟩
        [⟨"a", "A", 2, 1, ["b"]⟩, ⟨"b", "B", 2, 1, ["c"]⟩, ⟨"c", "C", 2, 1, []⟩]
      ).learning_roadmap.learning_path.map (fun st => st.skill_id)) := by
  constructor
  · decide
  · decide

/-! ### Queue sorting lemmas for the tie-break rule -/

theorem mem_insertByKey (key : String → Int) (a x : String) (l : List String) :
    x ∈ insertByKey key a l ↔ x = a ∨ x ∈ l := by
  induction l with
  | nil => simp [insertByKey]
  | cons b t ih =>
    by_cases h : key a ≤ key b
    · simp [insertByKey, h]
    · simp only [insertByKey, if_neg h, List.mem_cons, ih]
      tauto

theorem mem_sortByKey (key : String → Int) (x : String) (l : List String) :
    x ∈ sortByKey key l ↔ x ∈ l := by
  induction l with
  | nil => simp [sortByKey]
  | cons a t ih => simp [sortByKey, mem_insertByKey, ih]

theorem pairwise_insertByKey (key : String → Int) (a : String) (l : List String)
    (h : l.Pairwise (fun x y => key x ≤ key y)) :
    (insertByKey key a l).Pairwise (fun x y => key x ≤ key y) := by
  induction l with
  | nil => simp [insertByKey]
  | cons b t ih =>
    rcases List.pairwise_cons.mp h with ⟨hb, ht⟩
    by_cases hab : key a ≤ key b
    · rw [insertByKey, if_pos hab]
      refine List.pairwise_cons.mpr ⟨?_, h⟩
      intro x hx
      rcases List.mem_cons.mp hx with hx | hx
      · exact hx ▸ hab
      · exact le_trans hab (hb x hx)
    · rw [insertByKey, if_neg hab]
      refine List.pairwise_cons.mpr ⟨?_, ih ht⟩
      intro x hx
      rcases (mem_insertByKey key a x t).mp hx with hx | hx
      · exact hx ▸ le_of_lt (lt_of_not_le hab)
      · exact hb x hx

theorem pairwise_sortByKey (key : String → Int) (l : List String) :
    (sortByKey key l).Pairwise (fun x y => key x ≤ key y) := by
  induction l with
  | nil => simp [sortByKey]
  | cons a t ih => exact pairwise_insertByKey key a (sortByKey key t) ih

/-- The head of the sorted ready-queue has minimal key among all its members. -/
theorem sortByKey_head_minimal (key : String → Int) (l : List String)
    (current : String) (rest : List String)
    (hs : sortByKey key l = current :: rest) :
    ∀ x ∈ l, key current ≤ key x := by
  intro x hx
  have hx2 : x ∈ current :: rest := hs ▸ (mem_sortByKey key x l).mpr hx
  rcases List.mem_cons.mp hx2 with hx2 | hx2
  · exact hx2 ▸ le_refl _
  · have hp := pairwise_sortByKey key l
    rw [hs] at hp
    exact (List.pairwise_cons.mp hp).1 x hx2

/-- C7: at every step of the Kahn drain, the skill emitted next (the head of
the ready-queue after the stable difficulty sort) has catalog difficulty less
than or equal to every other eligible skill in the queue — and in particular
two independent skills of difficulties 3 and 7 are sequenced easier-first. -/
theorem c7_difficulty_tie_break :
    (∀ (skillMap : List (String × Skill)) (graph : List (String × List String))
        (fuel : Nat) (queue : List String) (inDeg : List (String × Int))
        (res : List String) (current : String) (rest : List String),
      sortByKey (diffKey skillMap) queue = current :: rest →
        (∃ inDeg2 q2, kahnLoop skillMap graph (Nat.succ fuel) queue inDeg res
            = kahnLoop skillMap graph fuel q2 inDeg2 (res ++ [current]))
        ∧ ∀ x ∈ queue, diffKey skillMap current ≤ diffKey skillMap x)
    ∧ topologicalSort ["b", "a"]
        [⟨"a", "SkillA", 3, 1, []⟩, ⟨"b", "SkillB", 7, 1, []⟩] []
        = ["a", "b"] := by
  constructor
  · intro skillMap graph fuel queue inDeg res current rest hs
    constructor
    · refine ⟨(((mget graph current).getD []).foldl
          (fun (p : List (String × Int) × List String) nb =>
            let nd := (mget p.1 nb).getD 0 - 1
            (mset p.1 nb nd, if nd = 0 then p.2 ++ [nb] else p.2))
          (inDeg, rest)).1,
        (((mget graph current).getD []).foldl
          (fun (p : List (String × Int) × List String) nb =>
            let nd := (mget p.1 nb).getD 0 - 1
            (mset p.1 nb nd, if nd = 0 then p.2 ++ [nb] else p.2))
          (inDeg, rest)).2, ?_⟩
      simp only [kahnLoop, hs]
    · exact sortByKey_head_minimal (diffKey skillMap) queue current rest hs
  · decide

/-- C7 witness: the per-step minimality instantiated on the concrete
two-element ready-queue of the 3-vs-7 scenario. -/
theorem c7_difficulty_tie_break_witness :
    (∃ inDeg2 q2,
        kahnLoop (buildSkillMap
            [⟨"a", "SkillA", 3, 1, []⟩, ⟨"b", "SkillB", 7, 1, []⟩]) []
            (Nat.succ 4) ["b", "a"] [("b", 0), ("a", 0)] []
          = kahnLoop (buildSkillMap
            [⟨"a", "SkillA", 3, 1, []⟩, ⟨"b", "SkillB", 7, 1, []⟩]) []
            4 q2 inDeg2 ([] ++ ["a"]))
      ∧ ∀ x ∈ ["b", "a"],
        diffKey (buildSkillMap
            [⟨"a", "SkillA", 3, 1, []⟩, ⟨"b", "SkillB", 7, 1, []⟩]) "a"
          ≤ diffKey (buildSkillMap
            [⟨"a", "SkillA", 3, 1, []⟩, ⟨"b", "SkillB", 7, 1, []⟩]) x :=
  c7_difficulty_tie_break.1 (buildSkillMap
      [⟨"a", "SkillA", 3, 1, []⟩, ⟨"b", "SkillB", 7, 1, []⟩]) [] 4
    ["b", "a"] [("b", 0), ("a", 0)] [] "a" ["b"] (by decide)

/-! ### Map and phase structure lemmas -/

theorem mem_mset {β : Type} (m : List (String × β)) (k : String) (v : β)
    (p : String × β) (h : p ∈ mset m k v) : p ∈ m ∨ p = (k, v) := by
  unfold mset at h
  by_cases ha : m.any (fun q => q.1 == k)
  · rw [if_pos ha] at h
    obtain ⟨q, hq, hpq⟩ := List.mem_map.mp h
    by_cases hk : q.1 == k
    · rw [if_pos hk] at hpq
      exact Or.inr hpq.symm
    · rw [if_neg hk] at hpq
      exact Or.inl (hpq ▸ hq)
  · rw [if_neg ha] at h
    rcases List.mem_append.mp h with h | h
    · exact Or.inl h
    · exact Or.inr (List.mem_singleton.mp h)

theorem mget_mem {β : Type} (m : List (String × β)) (k : String) (v : β)
    (h : mget m k = some v) : (k, v) ∈ m := by
  unfold mget at h
  cases hf : m.find? (fun p => p.1 == k) with
  | none => rw [hf] at h; exact absurd h (Option.noConfusion)
  | some pr =>
    rw [hf] at h
    have hk : pr.1 = k := by simpa using List.find?_some hf
    have hv : pr.2 = v := by simpa using h
    have : pr ∈ m := List.mem_of_find?_eq_some hf
    rwa [show (k, v) = pr from by rw [← hk, ← hv]]

theorem buildSkillMap_inv (L : List Skill) :
    ∀ (l : List Skill) (m : List (String × Skill)),
      (∀ p ∈ m, p.2 ∈ L ∧ p.2.id = p.1) → (∀ s ∈ l, s ∈ L) →
      ∀ p ∈ l.foldl (fun m s => mset m s.id s) m, p.2 ∈ L ∧ p.2.id = p.1 := by
  intro l
  induction l with
  | nil => intro m hm _ p hp; exact hm p hp
  | cons s t ih =>
    intro m hm hl p hp
    refine ih (mset m s.id s) ?_ (fun x hx => hl x (List.mem_cons_of_mem s hx))
      p hp
    intro q hq
    rcases mem_mset m s.id s q hq with hq | hq
    · exact hm q hq
    · exact hq ▸ ⟨hl s (List.mem_cons_self s t), rfl⟩

/-- A successful catalog-map lookup returns a catalog skill whose id is the
queried key. -/
theorem mget_buildSkillMap (allSkills : List Skill) (skillId : String)
    (sk : Skill) (h : mget (buildSkillMap allSkills) skillId = some sk) :
    sk ∈ allSkills ∧ sk.id = skillId := by
  have := buildSkillMap_inv allSkills allSkills []
    (by intro p hp; exact absurd hp (List.not_mem_nil p)) (fun s hs => hs)
    (skillId, sk) (mget_mem _ _ _ h)
  exact ⟨this.1, this.2⟩

theorem snd_mem_enumFrom {α : Type} :
    ∀ (n : Nat) (l : List α) (p : Nat × α), p ∈ List.enumFrom n l → p.2 ∈ l := by
  intro n l
  induction l generalizing n with
  | nil => intro p hp; simp [List.enumFrom] at hp
  | cons a t ih =>
    intro p hp
    rw [List.enumFrom_cons] at hp
    rcases List.mem_cons.mp hp with hp | hp
    · rw [hp]; exact List.mem_cons_self a t
    · exact List.mem_cons_of_mem a (ih (n + 1) p hp)

/-- Every step of a created phase carries a buffer skill id. -/
theorem createPhase_step_skill_id (n : Nat) (ids : List String)
    (m : List (String × Skill)) (st : LearningPathStep)
    (h : st ∈ (createPhase n ids m).skills) : st.skill_id ∈ ids := by
  simp only [createPhase] at h
  obtain ⟨p, hp, hst⟩ := List.mem_map.mp h
  have hid : st.skill_id = p.2 := by
    cases hc : mget m p.2 <;> simp [hc] at hst <;> rw [← hst]
  rw [hid]
  rw [List.enum_eq_enumFrom] at hp
  exact snd_mem_enumFrom 0 ids p hp

/-- A created phase has exactly one step per buffer entry. -/
theorem createPhase_length (n : Nat) (ids : List String)
    (m : List (String × Skill)) :
    (createPhase n ids m).skills.length = ids.length := by
  simp [createPhase]

/-- On a buffer of catalog-known ids the per-id duration lookup agrees with
summing over the filtered known skills. -/
theorem known_weeks_sum (m : List (String × Skill)) :
    ∀ (ids : List String), (∀ id ∈ ids, (mget m id).isSome) →
      (ids.map (fun id =>
        match mget m id with
        | some sk => sk.typical_learning_time_weeks
        | none => 0)).sum
        = ((ids.filterMap (mget m)).map
            (fun s => s.typical_learning_time_weeks)).sum := by
  intro ids
  induction ids with
  | nil => simp
  | cons id t ih =>
    intro h
    have hid := h id (List.mem_cons_self id t)
    obtain ⟨sk, hsk⟩ := Option.isSome_iff_exists.mp hid
    simp only [List.map_cons, List.sum_cons, List.filterMap_cons, hsk]
    rw [ih (fun x hx => h x (List.mem_cons_of_mem id hx))]

/-- For a buffer of catalog-known ids, the phase duration equals the sum of
its steps' durations. -/
theorem createPhase_weeks (n : Nat) (ids : List String)
    (m : List (String × Skill)) (h : ∀ id ∈ ids, (mget m id).isSome) :
    ((createPhase n ids m).skills.map (fun st => st.estimated_weeks)).sum
      = (createPhase n ids m).estimated_weeks := by
  simp only [createPhase, List.map_map]
  have hsnd : ∀ (g : String → ℚ) (f : Nat × String → ℚ)
      (hfg : ∀ p : Nat × String, f p = g p.2),
      (ids.enum.map f).sum = (ids.map g).sum := by
    intro g f hfg
    have : ids.enum.map f = (ids.enum.map Prod.snd).map g := by
      rw [List.map_map]
      exact List.map_congr_left (fun p _ => hfg p)
    rw [this, List.enum_map_snd]
  rw [hsnd (fun id =>
    match mget m id with
    | some sk => sk.typical_learning_time_weeks
    | none => 0) _ ?_]
  · exact known_weeks_sum m ids h
  · intro p
    cases hc : mget m p.2 <;> simp [hc]

/-- Invariant propagation through the phase-grouping loop: any property that
holds of every already-emitted phase and of any phase created from a
catalog-known buffer holds of every phase in the loop's output. -/
theorem groupLoop_forall (skillMap : List (String × Skill))
    (Q : LearningPhase → Prop)
    (hQ : ∀ n ids, (∀ id ∈ ids, (mget skillMap id).isSome) →
      Q (createPhase n ids skillMap)) :
    ∀ (rest : List String) (phases : List LearningPhase) (buf : List String)
      (maxDifficulty : Int),
      (∀ ph ∈ phases, Q ph) → (∀ id ∈ buf, (mget skillMap id).isSome) →
      ∀ ph ∈ groupLoop skillMap rest phases buf maxDifficulty, Q ph := by
  intro rest
  induction rest with
  | nil =>
    intro phases buf maxDifficulty hphases hbuf ph hph
    rw [groupLoop] at hph
    by_cases hb : 0 < buf.length
    · rw [if_pos hb] at hph
      rcases List.mem_append.mp hph with hph | hph
      · exact hphases ph hph
      · exact (List.mem_singleton.mp hph) ▸ hQ _ buf hbuf
    · rw [if_neg hb] at hph
      exact hphases ph hph
  | cons skillId t ih =>
    intro phases buf maxDifficulty hphases hbuf ph hph
    rw [groupLoop] at hph
    cases hc : mget skillMap skillId with
    | none =>
      simp only [hc] at hph
      exact ih phases buf maxDifficulty hphases hbuf ph hph
    | some skill =>
      simp only [hc] at hph
      by_cases hcond : (3 ≤ (skill.difficulty : Int) - maxDifficulty
          ∨ 4 ≤ buf.length) ∧ 0 < buf.length
      · rw [if_pos hcond] at hph
        refine ih _ _ _ ?_ ?_ ph hph
        · intro q hq
          rcases List.mem_append.mp hq with hq | hq
          · exact hphases q hq
          · exact (List.mem_singleton.mp hq) ▸ hQ _ buf hbuf
        · intro id hid
          rw [List.mem_singleton.mp hid, hc]
          rfl
      · rw [if_neg hcond] at hph
        refine ih _ _ _ hphases ?_ ph hph
        intro id hid
        rcases List.mem_append.mp hid with hid | hid
        · exact hbuf id hid
        · rw [List.mem_singleton.mp hid, hc]
          rfl

/-- The phase-grouping loop never emits a phase of more than 4 skills as long
as the running buffer respects the bound (the phase is closed before adding
whenever the buffer already holds 4 or more skills). -/
theorem groupLoop_length_le (skillMap : List (String × Skill)) :
    ∀ (rest : List String) (phases : List LearningPhase) (buf : List String)
      (maxDifficulty : Int),
      (∀ ph ∈ phases, ph.skills.length ≤ 4) → buf.length ≤ 4 →
      ∀ ph ∈ groupLoop skillMap rest phases buf maxDifficulty,
        ph.skills.length ≤ 4 := by
  intro rest
  induction rest with
  | nil =>
    intro phases buf maxDifficulty hphases hbuf ph hph
    rw [groupLoop] at hph
    by_cases hb : 0 < buf.length
    · rw [if_pos hb] at hph
      rcases List.mem_append.mp hph with hph | hph
      · exact hphases ph hph
      · rw [List.mem_singleton.mp hph, createPhase_length]
        exact hbuf
    · rw [if_neg hb] at hph
      exact hphases ph hph
  | cons skillId t ih =>
    intro phases buf maxDifficulty hphases hbuf ph hph
    rw [groupLoop] at hph
    cases hc : mget skillMap skillId with
    | none =>
      simp only [hc] at hph
      exact ih phases buf maxDifficulty hphases hbuf ph hph
    | some skill =>
      simp only [hc] at hph
      by_cases hcond : (3 ≤ (skill.difficulty : Int) - maxDifficulty
          ∨ 4 ≤ buf.length) ∧ 0 < buf.length
      · rw [if_pos hcond] at hph
        refine ih _ _ _ ?_ (by simp) ph hph
        intro q hq
        rcases List.mem_append.mp hq with hq | hq
        · exact hphases q hq
        · rw [List.mem_singleton.mp hq, createPhase_length]
          exact hbuf
      · rw [if_neg hcond] at hph
        refine ih _ _ _ hphases ?_ ph hph
        have hlt : buf.length < 4 := by
          by_contra hge
          push_neg at hge
          exact hcond ⟨Or.inr hge, lt_of_lt_of_le (by norm_num) hge⟩
        simp only [List.length_append, List.length_singleton]
        omega

/-- Every step of the flattened path descends from a step of some phase,
with the same skill id (only the global order number is reassigned). -/
theorem mem_flattenPhases (phases : List LearningPhase)
    (step : LearningPathStep) (h : step ∈ flattenPhases phases) :
    ∃ ph ∈ phases, ∃ st ∈ ph.skills, step.skill_id = st.skill_id := by
  unfold flattenPhases at h
  obtain ⟨p, hp, hstep⟩ := List.mem_map.mp h
  have hid : step.skill_id = p.2.skill_id := by rw [← hstep]
  rw [List.enum_eq_enumFrom] at hp
  have h2 : p.2 ∈ (phases.map (fun ph => ph.skills)).flatten :=
    snd_mem_enumFrom 0 _ p hp
  obtain ⟨s, hs, hmem⟩ := List.mem_flatten.mp h2
  obtain ⟨ph, hph, hsk⟩ := List.mem_map.mp hs
  exact ⟨ph, hph, p.2, hsk ▸ hmem, hid⟩

/-- Flattening preserves the total duration: if each phase's recorded duration
is the sum of its steps' durations, the flattened path's duration sum equals
the sum of the phase durations. -/
theorem flattenPhases_weeks (phases : List LearningPhase)
    (h : ∀ ph ∈ phases,
      (ph.skills.map (fun st => st.estimated_weeks)).sum = ph.estimated_weeks) :
    ((flattenPhases phases).map (fun st => st.estimated_weeks)).sum
      = (phases.map (fun ph => ph.estimated_weeks)).sum := by
  unfold flattenPhases
  rw [List.map_map]
  have h1 : ((phases.map (fun ph => ph.skills)).flatten).enum.map
        ((fun st => st.estimated_weeks)
          ∘ (fun p : Nat × LearningPathStep => { p.2 with order := p.1 + 1 }))
      = ((phases.map (fun ph => ph.skills)).flatten).enum.map
        ((fun st => st.estimated_weeks) ∘ Prod.snd) :=
    List.map_congr_left (fun p _ => rfl)
  rw [h1, ← List.map_map, List.enum_map_snd, List.map_flatten,
    List.sum_flatten, List.map_map, List.map_map]
  exact congrArg List.sum (List.map_congr_left (fun ph hph => h ph hph))

/-- C4 (counterexample): a role requiring the identifier `xx`, absent from the
catalog, still yields a complete analysis — no error is raised anywhere —
whose gap list contains `xx` but whose learning path is empty: a silently
defaulted partial result, the roadmap missing that very skill. -/
theorem c4_unknown_skill_counterexample :
    (generateAnalysis ⟨"cand", 0, []⟩ ⟨"role", 2, [⟨"xx", 5, Importance.High⟩]⟩
        [⟨"aa", "SkillA", 3, 2, []⟩]).learning_roadmap.learning_path = []
      ∧ (generateAnalysis ⟨"cand", 0, []⟩
        ⟨"role", 2, [⟨"xx", 5, Importance.High⟩]⟩
        [⟨"aa", "SkillA", 3, 2, []⟩]).gap_analysis.missing_skills.map
          (fun gap => gap.skill_id) = ["xx"] := by
  constructor
  · decide
  · decide

/-- C4 (amended): a skill identifier absent from the Skill Catalog never makes
the analysis fail — the whole pipeline is total — and is instead silently
dropped from the learning path: every step of any generated roadmap refers to
a skill that exists in the catalog. -/
theorem c4_amended_unknown_ids_dropped (candidate : Candidate)
    (targetRole : TargetRole) (skillGaps : List SkillGap)
    (allSkills : List Skill) :
    ∀ step ∈ (generateRoadmap candidate targetRole skillGaps
        allSkills).learning_path,
      ∃ sk ∈ allSkills, sk.id = step.skill_id := by
  intro step hstep
  unfold generateRoadmap at hstep
  by_cases h : (skillGaps.map (fun gap => gap.skill_id)).length = 0
  · rw [if_pos h] at hstep
    exact absurd hstep (List.not_mem_nil step)
  · rw [if_neg h] at hstep
    have hstep2 : step ∈ flattenPhases (groupIntoPhases
        (topologicalSort (skillGaps.map (fun gap => gap.skill_id)) allSkills
          (buildCandidateSkillMap candidate.current_skills)) allSkills) := hstep
    obtain ⟨ph, hph, st, hst, hid⟩ := mem_flattenPhases _ step hstep2
    unfold groupIntoPhases at hph
    have hknown := groupLoop_forall (buildSkillMap allSkills)
      (fun ph => ∀ st ∈ ph.skills,
        (mget (buildSkillMap allSkills) st.skill_id).isSome)
      (fun n ids hids st hst =>
        hids st.skill_id (createPhase_step_skill_id n ids _ st hst))
      (topologicalSort (skillGaps.map (fun gap => gap.skill_id)) allSkills
        (buildCandidateSkillMap candidate.current_skills)) [] [] 0
      (fun q hq => absurd hq (List.not_mem_nil q))
      (fun id hid => absurd hid (List.not_mem_nil id))
      ph hph st hst
    obtain ⟨sk, hsk⟩ := Option.isSome_iff_exists.mp hknown
    obtain ⟨hmem, hskid⟩ := mget_buildSkillMap allSkills st.skill_id sk hsk
    exact ⟨sk, hmem, by rw [hskid, hid]⟩

/-- C4 amended witness: the single step of a concrete roadmap for gap `aa`
refers to the catalog skill `aa`. -/
theorem c4_amended_unknown_ids_dropped_witness :
    ∃ sk ∈ ([⟨"aa", "SkillA", 3, 2, []⟩] : List Skill),
      sk.id = (⟨1, "aa", 2, true, "Phase 1: Fundamentals - SkillA"⟩ :
        LearningPathStep).skill_id := by
  have hpath : (generateRoadmap ⟨"cand", 0, []⟩ ⟨"role", 0, []⟩
      [⟨"aa", 0, 5, 5, Importance.High⟩]
      [⟨"aa", "SkillA", 3, 2, []⟩]).learning_path
      = [⟨1, "aa", 2, true, "Phase 1: Fundamentals - SkillA"⟩] := by
    simp [generateRoadmap, topologicalSort, buildSkillMap,
      buildCandidateSkillMap, mset, mget, kahnLoop, sortByKey, insertByKey,
      diffKey, processSkill, processPrereq, candidateHasPrereq,
      groupIntoPhases, groupLoop, createPhase, flattenPhases, List.enum,
      List.enumFrom, List.find?]
    norm_num
    decide
  exact c4_amended_unknown_ids_dropped ⟨"cand", 0, []⟩ ⟨"role", 0, []⟩
    [⟨"aa", 0, 5, 5, Importance.High⟩] [⟨"aa", "SkillA", 3, 2, []⟩]
    ⟨1, "aa", 2, true, "Phase 1: Fundamentals - SkillA"⟩
    (hpath ▸ List.mem_singleton.mpr rfl)

/-- C8: the flattened learning path of any generated roadmap is exactly the
concatenation of the phase step-lists in phase order (with the global 1-based
renumbering applied across phase boundaries, as `flattenPhases` does), and the
sum of the phases' estimated durations equals the roadmap's total estimated
duration in weeks. -/
theorem c8_phase_concat_and_duration (candidate : Candidate)
    (targetRole : TargetRole) (skillGaps : List SkillGap)
    (allSkills : List Skill) :
    (generateRoadmap candidate targetRole skillGaps allSkills).learning_path
        = flattenPhases (groupIntoPhases
            (topologicalSort (skillGaps.map (fun gap => gap.skill_id))
              allSkills (buildCandidateSkillMap candidate.current_skills))
            allSkills)
      ∧ ((groupIntoPhases
            (topologicalSort (skillGaps.map (fun gap => gap.skill_id))
              allSkills (buildCandidateSkillMap candidate.current_skills))
            allSkills).map (fun ph => ph.estimated_weeks)).sum
        = (generateRoadmap candidate targetRole skillGaps
            allSkills).estimated_total_weeks := by
  have hphase : ∀ ph ∈ groupIntoPhases
      (topologicalSort (skillGaps.map (fun gap => gap.skill_id)) allSkills
        (buildCandidateSkillMap candidate.current_skills)) allSkills,
      (ph.skills.map (fun st => st.estimated_weeks)).sum
        = ph.estimated_weeks := by
    intro ph hph
    unfold groupIntoPhases at hph
    exact groupLoop_forall (buildSkillMap allSkills)
      (fun ph => (ph.skills.map (fun st => st.estimated_weeks)).sum
        = ph.estimated_weeks)
      (fun n ids hids => createPhase_weeks n ids _ hids)
      (topologicalSort (skillGaps.map (fun gap => gap.skill_id)) allSkills
        (buildCandidateSkillMap candidate.current_skills)) [] [] 0
      (fun q hq => absurd hq (List.not_mem_nil q))
      (fun id hid => absurd hid (List.not_mem_nil id))
      ph hph
  unfold generateRoadmap
  by_cases h : (skillGaps.map (fun gap => gap.skill_id)).length = 0
  · have hnil : skillGaps.map (fun gap => gap.skill_id) = [] :=
      List.length_eq_zero.mp h
    rw [if_pos h]
    rw [hnil]
    constructor
    · rfl
    · rfl
  · rw [if_neg h]
    exact ⟨rfl, (flattenPhases_weeks _ hphase).symm⟩

/-- C9: every phase produced by the phase grouper contains at most 4 skills:
the buffered phase is closed before adding the next skill whenever the buffer
already holds 4 or more skills or the next skill's difficulty exceeds the
buffer's running maximum by 3 or more. -/
theorem c9_phase_size_bound (orderedSkills : List String)
    (allSkills : List Skill) (ph : LearningPhase)
    (hph : ph ∈ groupIntoPhases orderedSkills allSkills) :
    ph.skills.length ≤ 4 := by
  unfold groupIntoPhases at hph
  exact groupLoop_length_le (buildSkillMap allSkills) orderedSkills [] [] 0
    (fun q hq => absurd hq (List.not_mem_nil q)) (by simp) ph hph

/-- C9 witness: the single phase grouped from a one-skill sequence holds at
most 4 skills. -/
theorem c9_phase_size_bound_witness :
    (createPhase 1 ["aa"] (buildSkillMap [⟨"aa", "SkillA", 3, 2, []⟩])
      ).skills.length ≤ 4 := by
  refine c9_phase_size_bound ["aa"] [⟨"aa", "SkillA", 3, 2, []⟩] _ ?_
  simp [groupIntoPhases, groupLoop, buildSkillMap, mset, mget, List.find?]
